import Mathlib

/-!
Shallow embedding of the batching Kafka producer in
src/routerlicious/functions/deli/src/rdkafka/producer.ts (class RdkafkaProducer).

Modelling choices:
* JS numbers that hold message lengths, sizes and counters are natural numbers;
  the effective size limit (maxMessageSize * 0.75 in the constructor) is a
  rational, since 0.75 of an arbitrary configured value need not be integral.
* The JS Map (insertion-ordered) is an association list; Map.get is the first
  matching entry, Map.set replaces the first matching entry in place or appends.
* A Deferred (promise handle) is a natural-number identifier, drawn from a
  fresh-id counter in the state; "submit returns the boxcar's deferred promise"
  becomes "send returns the boxcar's handle id".
* The external node-rdkafka producer is modelled by a log of produce calls
  (field produced); the Date.now() timestamp argument is real time and is
  omitted from the record.
* scheduleCount is a ghost counter of how many times a deferred flush was
  scheduled (setImmediate calls); it instruments requestSend without
  altering its behaviour.
-/

namespace Rdkafka

/-- Modelled from the spec: the constant BoxcarType imported from
`@prague/routerlicious/dist/core` is not part of the sources; the spec gives the
outbound record as `{type: "boxcar", ...}`. -/
def BoxcarType : String := "boxcar"

/-- MaxBatchSize = Number.MAX_VALUE, the largest IEEE-754 double,
(2 - 2^(-52)) * 2^1023 = (2^53 - 1) * 2^971, an exact integer, written as a
numeral so that it evaluates by kernel reduction; MaxBatchSize_eq below checks
the value. -/
def MaxBatchSize : ℕ := 179769313486231570814527423731704356798070567525844996598917476803157260780028538760589558632766878171540458953514382464234321326889464182768467546703537516986049910576551282076245490090389328944075868508455133942304583236903222948165808559332123348274797826204144723168738177180919299881250404026184124858368

theorem MaxBatchSize_eq : MaxBatchSize = (2 ^ 53 - 1) * 2 ^ 971 := by
  unfold MaxBatchSize
  norm_num

/-- The IPendingBoxcar entries built in send: deferred handle, documentId,
ordered message list, running size, tenantId. -/
structure IPendingBoxcar where
  deferred : ℕ
  documentId : String
  messages : List String
  size : ℕ
  tenantId : String
deriving DecidableEq, Repr

/-- The IBoxcarMessage payload built in sendPendingMessages. -/
structure IBoxcarMessage where
  contents : List String
  documentId : String
  tenantId : String
  type : String
deriving DecidableEq, Repr

/-- One call to producer.produce(topic, null, payload, key, timestamp, deferred);
token is the deferred handle passed as the correlation value. -/
structure ProducedRecord where
  topic : String
  partition : Option ℕ
  payload : IBoxcarMessage
  key : String
  token : ℕ
deriving DecidableEq, Repr

/-- The mutable state of an RdkafkaProducer instance, plus the produce log of
the broker client and the ghost schedule counter. -/
structure RdkafkaProducer where
  messages : List (String × List IPendingBoxcar)
  connected : Bool
  sendPending : Bool
  pendingMessageCount : ℕ
  maxMessageSize : ℚ
  topic : String
  nextDeferredId : ℕ
  produced : List ProducedRecord
  scheduleCount : ℕ
deriving DecidableEq, Repr

/-- Exact multiplication by 0.75 on rationals, written with Rat.divInt so that
it evaluates by kernel reduction; threeQuarters_eq below shows it is
q * (3 / 4). -/
def threeQuarters (q : ℚ) : ℚ := Rat.divInt (3 * q.num) (4 * (q.den : ℤ))

theorem threeQuarters_eq (q : ℚ) : threeQuarters q = q * (3 / 4) := by
  rw [threeQuarters, Rat.divInt_eq_div]
  push_cast
  conv_rhs => rw [← Rat.num_div_den q]
  have hd : ((q.den : ℚ)) ≠ 0 := by exact_mod_cast q.den_nz
  field_simp
  ring

/-- The stream key: the template literal tenantId + "/" + documentId. -/
def makeKey (tenantId documentId : String) : String :=
  tenantId ++ "/" ++ documentId

/-- JS Map.get on an insertion-ordered association list. -/
def mapGet (m : List (String × α)) (k : String) : Option α :=
  (m.find? (fun p => p.1 = k)).map Prod.snd

/-- JS Map.set: replace the first entry with this key in place, else append. -/
def mapSet (m : List (String × α)) (k : String) (v : α) : List (String × α) :=
  match m with
  | [] => [(k, v)]
  | (k2, v2) :: rest => if k2 = k then (k, v) :: rest else (k2, v2) :: mapSet rest k v

/-- Apply f to the last element of a list (JS boxcars[boxcars.length - 1]). -/
def updateLast (f : α → α) : List α → List α
  | [] => []
  | [a] => [f a]
  | a :: b :: rest => a :: updateLast f (b :: rest)

/-- The constructor: messages empty, not connected, no pending send, zero
pending messages, and the effective limit is maxMessageSize * 0.75. -/
def mkProducer (topic : String) (maxMessageSize : ℚ) : RdkafkaProducer :=
  { messages := []
    connected := false
    sendPending := false
    pendingMessageCount := 0
    maxMessageSize := threeQuarters maxMessageSize
    topic := topic
    nextDeferredId := 0
    produced := []
    scheduleCount := 0 }

/-- The boxcar test in send: boxcars.length === 0 ||
boxcars[boxcars.length - 1].size + message.length > this.maxMessageSize. -/
def needNewBoxcar (limit : ℚ) (boxcars : List IPendingBoxcar) (len : ℕ) : Bool :=
  match boxcars.getLast? with
  | none => true
  | some tail => decide (((tail.size + len : ℕ) : ℚ) > limit)

/-- boxcar.messages.push(message); boxcar.size += message.length. -/
def pushMsg (message : String) (b : IPendingBoxcar) : IPendingBoxcar :=
  { b with messages := b.messages ++ [message], size := b.size + message.length }

/-- The queue update performed by send on the key's boxcar list: push a fresh
boxcar if needed, then push the message onto the tail boxcar and grow its size. -/
def appendMessage (limit : ℚ) (nextId : ℕ) (tenantId documentId message : String)
    (boxcars : List IPendingBoxcar) : List IPendingBoxcar :=
  let boxcars1 :=
    if needNewBoxcar limit boxcars message.length then
      boxcars ++ [{ deferred := nextId, documentId := documentId, messages := [],
                    size := 0, tenantId := tenantId }]
    else boxcars
  updateLast (pushMsg message) boxcars1

/-- The produce call that sendPendingMessages makes for one boxcar. -/
def boxcarRecord (topic : String) (b : IPendingBoxcar) : ProducedRecord :=
  { topic := topic
    partition := none
    payload := { contents := b.messages, documentId := b.documentId,
                 tenantId := b.tenantId, type := BoxcarType }
    key := b.documentId
    token := b.deferred }

/-- sendPendingMessages: produce one record per boxcar, iterating the map in
insertion order and each queue in order, then clear the counter and the map. -/
def RdkafkaProducer.sendPendingMessages (st : RdkafkaProducer) : RdkafkaProducer :=
  { st with
    produced := st.produced ++ (st.messages.map (fun p => p.2.map (boxcarRecord st.topic))).flatten
    pendingMessageCount := 0
    messages := [] }

/-- requestSend: no-op if not connected; at the batch-size ceiling cancel the
deferred flush and flush synchronously; no-op if a flush is already scheduled;
otherwise schedule one (setImmediate), counted by the ghost scheduleCount. -/
def RdkafkaProducer.requestSend (st : RdkafkaProducer) : RdkafkaProducer :=
  if !st.connected then st
  else if st.pendingMessageCount ≥ MaxBatchSize then
    RdkafkaProducer.sendPendingMessages { st with sendPending := false }
  else if st.sendPending then st
  else { st with sendPending := true, scheduleCount := st.scheduleCount + 1 }

/-- The scheduled immediate firing: run sendPendingMessages, clear sendPending. -/
def RdkafkaProducer.runScheduledFlush (st : RdkafkaProducer) : RdkafkaProducer :=
  if st.sendPending then
    { st.sendPendingMessages with sendPending := false }
  else st

/-- The key's boxcar queue as send reads it (empty when the key is absent). -/
def RdkafkaProducer.queueOf (st : RdkafkaProducer) (key : String) : List IPendingBoxcar :=
  (mapGet st.messages key).getD []

/-- The state mutation of a non-oversized send, before requestSend runs. -/
def RdkafkaProducer.sendCore (st : RdkafkaProducer) (message tenantId documentId : String) :
    RdkafkaProducer :=
  { st with
    messages := mapSet st.messages (makeKey tenantId documentId)
      (appendMessage st.maxMessageSize st.nextDeferredId tenantId documentId message
        (st.queueOf (makeKey tenantId documentId)))
    nextDeferredId :=
      if needNewBoxcar st.maxMessageSize (st.queueOf (makeKey tenantId documentId))
          message.length then
        st.nextDeferredId + 1
      else st.nextDeferredId
    pendingMessageCount := st.pendingMessageCount + 1 }

/-- The deferred handle a non-oversized send returns: the tail boxcar's. -/
def RdkafkaProducer.sendHandle (st : RdkafkaProducer) (message tenantId documentId : String) : ℕ :=
  (((appendMessage st.maxMessageSize st.nextDeferredId tenantId documentId message
      (st.queueOf (makeKey tenantId documentId))).getLast?).map IPendingBoxcar.deferred).getD 0

/-- send(message, tenantId, documentId): reject oversized messages with no
state change; otherwise place the message in the key's tail boxcar (creating a
boxcar when required), bump the pending count, request a send, and return the
tail boxcar's deferred handle. -/
def RdkafkaProducer.send (st : RdkafkaProducer) (message tenantId documentId : String) :
    Except String (RdkafkaProducer × ℕ) :=
  if ((message.length : ℕ) : ℚ) ≥ st.maxMessageSize then
    .error "Message too large"
  else
    .ok ((st.sendCore message tenantId documentId).requestSend,
         st.sendHandle message tenantId documentId)

/-- The state transition of send, discarding the returned handle; an oversized
message leaves the state untouched. -/
def RdkafkaProducer.stepSubmit (st : RdkafkaProducer) (m t d : String) : RdkafkaProducer :=
  match st.send m t d with
  | .error _ => st
  | .ok (st1, _) => st1

/-- The connect callback: (error, data) => { this.connected = true;
this.requestSend(); } — the error argument is ignored. -/
def RdkafkaProducer.onConnected (_err : Option String) (st : RdkafkaProducer) :
    RdkafkaProducer :=
  RdkafkaProducer.requestSend { st with connected := true }

/-- The settlement a delivery report causes on its correlated handle. -/
inductive SettleAction where
  | reject (handle : ℕ) (err : String)
  | resolve (handle : ℕ)
deriving DecidableEq, Repr

/-- The part of a node-rdkafka delivery report the handler reads: its
correlation value, which the producer set to the boxcar's deferred handle. -/
structure DeliveryReport where
  token : ℕ
deriving DecidableEq, Repr

/-- The delivery-report handler: reject the correlated handle with the error
if one is present, else resolve it. -/
def onDeliveryReport (err : Option String) (report : DeliveryReport) : SettleAction :=
  match err with
  | some e => .reject report.token e
  | none => .resolve report.token

/-- The externally driven events that mutate producer state. -/
inductive Op where
  | submit (message tenantId documentId : String)
  | flushTick
  | connect (err : Option String)
deriving DecidableEq, Repr

/-- One event step. -/
def RdkafkaProducer.step (st : RdkafkaProducer) : Op → RdkafkaProducer
  | .submit m t d => st.stepSubmit m t d
  | .flushTick => st.runScheduledFlush
  | .connect err => st.onConnected err

/-- Run a sequence of events from a state. -/
def execFrom (st : RdkafkaProducer) (ops : List Op) : RdkafkaProducer :=
  ops.foldl RdkafkaProducer.step st

/-- States reachable from a freshly constructed producer. -/
def Reachable (st : RdkafkaProducer) : Prop :=
  ∃ topic mms ops, st = execFrom (mkProducer topic mms) ops

/-- The produce calls that flushing a message map makes, in order. -/
def recordsOf (topic : String) (m : List (String × List IPendingBoxcar)) :
    List ProducedRecord :=
  (m.map (fun p => p.2.map (boxcarRecord topic))).flatten

/-- Concatenated contents of the flushed records whose payload names key k. -/
def flushedFor (k : String) (st : RdkafkaProducer) : List String :=
  ((st.produced.filter (fun r => makeKey r.payload.tenantId r.payload.documentId = k)).map
    (fun r => r.payload.contents)).flatten

/-- Concatenated messages of the boxcars still queued under key k. -/
def pendingFor (k : String) (st : RdkafkaProducer) : List String :=
  ((st.queueOf k).map IPendingBoxcar.messages).flatten

/-- Everything key k has seen, flushed part first, queued part second. -/
def keyHistory (k : String) (st : RdkafkaProducer) : List String :=
  flushedFor k st ++ pendingFor k st

/-- The messages a sequence of events successfully submits under key k; a
submit succeeds exactly when its length is strictly below the limit. -/
def submittedFor (limit : ℚ) (k : String) : List Op → List String
  | [] => []
  | Op.submit m t d :: rest =>
      (if makeKey t d = k ∧ ¬ (((m.length : ℕ) : ℚ) ≥ limit) then [m] else [])
        ++ submittedFor limit k rest
  | _ :: rest => submittedFor limit k rest

/-- Every queued boxcar carries the tenantId and documentId its key was built
from. -/
def KeysConsistent (st : RdkafkaProducer) : Prop :=
  ∀ p ∈ st.messages, ∀ b ∈ p.2, makeKey b.tenantId b.documentId = p.1

/-- The message map holds at most one queue per key. -/
def KeysNodup (st : RdkafkaProducer) : Prop :=
  (st.messages.map Prod.fst).Nodup

/-- The structural well-formedness of the message map. -/
def GoodMap (st : RdkafkaProducer) : Prop :=
  KeysConsistent st ∧ KeysNodup st

/-! ### List-level lemmas about the map and queue primitives -/

theorem updateLast_concat (f : α → α) (xs : List α) (a : α) :
    updateLast f (xs ++ [a]) = xs ++ [f a] := by
  induction xs with
  | nil => rfl
  | cons x xs ih =>
    cases xs with
    | nil => rfl
    | cons y ys =>
      show x :: updateLast f ((y :: ys) ++ [a]) = x :: ((y :: ys) ++ [f a])
      rw [ih]

theorem updateLast_eq_dropLast (f : α → α) (l : List α) (h : l ≠ []) :
    updateLast f l = l.dropLast ++ [f (l.getLast h)] := by
  conv_lhs => rw [← List.dropLast_append_getLast h]
  rw [updateLast_concat]

theorem mapGet_nil (k : String) : mapGet ([] : List (String × α)) k = none := rfl

theorem mapGet_cons (k2 : String) (v2 : α) (rest : List (String × α)) (k : String) :
    mapGet ((k2, v2) :: rest) k = if k2 = k then some v2 else mapGet rest k := by
  by_cases h : k2 = k <;> simp [mapGet, List.find?, h]

theorem mapGet_mapSet_self (m : List (String × α)) (k : String) (v : α) :
    mapGet (mapSet m k v) k = some v := by
  induction m with
  | nil => simp [mapSet, mapGet_cons]
  | cons p rest ih =>
    obtain ⟨k2, v2⟩ := p
    by_cases h : k2 = k
    · simp [mapSet, h, mapGet_cons]
    · simp [mapSet, h, mapGet_cons, ih]

theorem mapGet_mapSet_ne (m : List (String × α)) {k k2 : String} (v : α) (h : k2 ≠ k) :
    mapGet (mapSet m k v) k2 = mapGet m k2 := by
  have hne : ¬ k = k2 := fun hh => h hh.symm
  induction m with
  | nil => simp [mapSet, mapGet_cons, mapGet_nil, hne]
  | cons p rest ih =>
    obtain ⟨k3, v3⟩ := p
    by_cases hk : k3 = k
    · subst hk
      simp [mapSet, mapGet_cons, hne]
    · simp [mapSet, hk, mapGet_cons, ih]

theorem mem_mapSet {m : List (String × α)} {k : String} {v : α} {p : String × α}
    (hp : p ∈ mapSet m k v) : p ∈ m ∨ p = (k, v) := by
  induction m with
  | nil => simpa [mapSet] using hp
  | cons q rest ih =>
    obtain ⟨k2, v2⟩ := q
    by_cases h : k2 = k
    · simp only [mapSet, if_pos h, List.mem_cons] at hp
      rcases hp with h1 | h1
      · exact Or.inr h1
      · exact Or.inl (List.mem_cons_of_mem _ h1)
    · simp only [mapSet, if_neg h, List.mem_cons] at hp
      rcases hp with h1 | h1
      · exact Or.inl (by simp [h1])
      · rcases ih h1 with h2 | h2
        · exact Or.inl (List.mem_cons_of_mem _ h2)
        · exact Or.inr h2

theorem mapSet_keys (m : List (String × α)) (k : String) (v : α) :
    (mapSet m k v).map Prod.fst =
      if k ∈ m.map Prod.fst then m.map Prod.fst else m.map Prod.fst ++ [k] := by
  induction m with
  | nil => simp [mapSet]
  | cons q rest ih =>
    obtain ⟨k2, v2⟩ := q
    by_cases h : k2 = k
    · simp [mapSet, h]
    · by_cases h2 : k ∈ rest.map Prod.fst
      · simp [mapSet, h, ih, h2, Ne.symm h]
      · simp [mapSet, h, ih, h2, Ne.symm h]

theorem mapSet_keys_nodup {m : List (String × α)} {k : String} {v : α}
    (h : (m.map Prod.fst).Nodup) : ((mapSet m k v).map Prod.fst).Nodup := by
  rw [mapSet_keys]
  by_cases hk : k ∈ m.map Prod.fst
  · simpa [hk] using h
  · simp only [hk, if_false]
    rw [List.nodup_append]
    refine ⟨h, List.nodup_singleton k, ?_⟩
    intro a ha hb
    rw [List.mem_singleton] at hb
    subst hb
    exact hk ha

/-! ### Characterizations of needNewBoxcar and appendMessage -/

theorem needNewBoxcar_eq_false {limit : ℚ} {q : List IPendingBoxcar} {len : ℕ}
    (h : needNewBoxcar limit q len = false) :
    ∃ tail, q.getLast? = some tail ∧ ¬ (((tail.size + len : ℕ) : ℚ) > limit) := by
  unfold needNewBoxcar at h
  cases hq : q.getLast? with
  | none => rw [hq] at h; exact absurd h (by simp)
  | some tail =>
    rw [hq] at h
    refine ⟨tail, rfl, ?_⟩
    simpa using h

theorem appendMessage_of_needNew {limit : ℚ} {nextId : ℕ} {t d m : String}
    {q : List IPendingBoxcar} (h : needNewBoxcar limit q m.length = true) :
    appendMessage limit nextId t d m q
      = q ++ [{ deferred := nextId, documentId := d, messages := [m],
                size := m.length, tenantId := t }] := by
  simp only [appendMessage, h, if_true, updateLast_concat]
  simp [pushMsg]

theorem appendMessage_of_tail {limit : ℚ} {nextId : ℕ} {t d m : String}
    {q : List IPendingBoxcar} {tail : IPendingBoxcar}
    (hq : q.getLast? = some tail) (h : needNewBoxcar limit q m.length = false) :
    appendMessage limit nextId t d m q = q.dropLast ++ [pushMsg m tail] := by
  have hne : q ≠ [] := by intro hh; rw [hh] at hq; simp at hq
  simp only [appendMessage, h, Bool.false_eq_true, if_false]
  rw [updateLast_eq_dropLast _ _ hne]
  have hg := List.getLast?_eq_getLast q hne
  rw [hg] at hq
  have : tail = q.getLast hne := by injection hq with hh; exact hh.symm
  rw [this]

theorem appendMessage_ne_nil (limit : ℚ) (nextId : ℕ) (t d m : String)
    (q : List IPendingBoxcar) : appendMessage limit nextId t d m q ≠ [] := by
  cases hn : needNewBoxcar limit q m.length with
  | true => rw [appendMessage_of_needNew hn]; simp
  | false =>
    obtain ⟨tail, hq, -⟩ := needNewBoxcar_eq_false hn
    rw [appendMessage_of_tail hq hn]
    simp

theorem appendMessage_flatten (limit : ℚ) (nextId : ℕ) (t d m : String)
    (q : List IPendingBoxcar) :
    ((appendMessage limit nextId t d m q).map IPendingBoxcar.messages).flatten
      = (q.map IPendingBoxcar.messages).flatten ++ [m] := by
  cases hn : needNewBoxcar limit q m.length with
  | true => rw [appendMessage_of_needNew hn]; simp
  | false =>
    obtain ⟨tail, hq, -⟩ := needNewBoxcar_eq_false hn
    rw [appendMessage_of_tail hq hn]
    have hne : q ≠ [] := by intro hh; rw [hh] at hq; simp at hq
    have hg := List.getLast?_eq_getLast q hne
    rw [hg] at hq
    have htail : tail = q.getLast hne := by injection hq with hh; exact hh.symm
    conv_rhs => rw [← List.dropLast_append_getLast hne]
    simp [pushMsg, htail]

theorem appendMessage_msgcount (limit : ℚ) (nextId : ℕ) (t d m : String)
    (q : List IPendingBoxcar) :
    ((appendMessage limit nextId t d m q).map (fun b => b.messages.length)).sum
      = (q.map (fun b => b.messages.length)).sum + 1 := by
  cases hn : needNewBoxcar limit q m.length with
  | true => rw [appendMessage_of_needNew hn]; simp
  | false =>
    obtain ⟨tail, hq, -⟩ := needNewBoxcar_eq_false hn
    rw [appendMessage_of_tail hq hn]
    have hne : q ≠ [] := by intro hh; rw [hh] at hq; simp at hq
    have hg := List.getLast?_eq_getLast q hne
    rw [hg] at hq
    have htail : tail = q.getLast hne := by injection hq with hh; exact hh.symm
    conv_rhs => rw [← List.dropLast_append_getLast hne]
    simp [pushMsg, htail]
    omega

/-! ### Field preservation -/

theorem sendPendingMessages_fields (st : RdkafkaProducer) :
    st.sendPendingMessages.maxMessageSize = st.maxMessageSize
      ∧ st.sendPendingMessages.connected = st.connected
      ∧ st.sendPendingMessages.sendPending = st.sendPending
      ∧ st.sendPendingMessages.topic = st.topic
      ∧ st.sendPendingMessages.nextDeferredId = st.nextDeferredId
      ∧ st.sendPendingMessages.scheduleCount = st.scheduleCount :=
  ⟨rfl, rfl, rfl, rfl, rfl, rfl⟩

theorem requestSend_fields (st : RdkafkaProducer) :
    st.requestSend.maxMessageSize = st.maxMessageSize
      ∧ st.requestSend.connected = st.connected
      ∧ st.requestSend.topic = st.topic
      ∧ st.requestSend.nextDeferredId = st.nextDeferredId := by
  unfold RdkafkaProducer.requestSend
  split
  · exact ⟨rfl, rfl, rfl, rfl⟩
  · split
    · exact ⟨rfl, rfl, rfl, rfl⟩
    · split
      · exact ⟨rfl, rfl, rfl, rfl⟩
      · exact ⟨rfl, rfl, rfl, rfl⟩

theorem sendCore_fields (st : RdkafkaProducer) (m t d : String) :
    (st.sendCore m t d).maxMessageSize = st.maxMessageSize
      ∧ (st.sendCore m t d).connected = st.connected
      ∧ (st.sendCore m t d).sendPending = st.sendPending
      ∧ (st.sendCore m t d).topic = st.topic
      ∧ (st.sendCore m t d).produced = st.produced
      ∧ (st.sendCore m t d).scheduleCount = st.scheduleCount
      ∧ (st.sendCore m t d).pendingMessageCount = st.pendingMessageCount + 1 :=
  ⟨rfl, rfl, rfl, rfl, rfl, rfl, rfl⟩

theorem runScheduledFlush_fields (st : RdkafkaProducer) :
    st.runScheduledFlush.maxMessageSize = st.maxMessageSize
      ∧ st.runScheduledFlush.connected = st.connected
      ∧ st.runScheduledFlush.topic = st.topic
      ∧ st.runScheduledFlush.nextDeferredId = st.nextDeferredId := by
  unfold RdkafkaProducer.runScheduledFlush
  split
  · exact ⟨rfl, rfl, rfl, rfl⟩
  · exact ⟨rfl, rfl, rfl, rfl⟩

/-! ### send unfolding -/

theorem stepSubmit_oversized {st : RdkafkaProducer} {m t d : String}
    (h : ((m.length : ℕ) : ℚ) ≥ st.maxMessageSize) :
    st.stepSubmit m t d = st := by
  unfold RdkafkaProducer.stepSubmit RdkafkaProducer.send
  rw [if_pos h]

theorem send_ok {st : RdkafkaProducer} {m t d : String}
    (h : ¬ ((m.length : ℕ) : ℚ) ≥ st.maxMessageSize) :
    st.send m t d = .ok ((st.sendCore m t d).requestSend, st.sendHandle m t d) := by
  unfold RdkafkaProducer.send
  rw [if_neg h]

theorem stepSubmit_ok {st : RdkafkaProducer} {m t d : String}
    (h : ¬ ((m.length : ℕ) : ℚ) ≥ st.maxMessageSize) :
    st.stepSubmit m t d = (st.sendCore m t d).requestSend := by
  unfold RdkafkaProducer.stepSubmit
  rw [send_ok h]

theorem stepSubmit_maxMessageSize (st : RdkafkaProducer) (m t d : String) :
    (st.stepSubmit m t d).maxMessageSize = st.maxMessageSize := by
  by_cases h : ((m.length : ℕ) : ℚ) ≥ st.maxMessageSize
  · rw [stepSubmit_oversized h]
  · rw [stepSubmit_ok h, (requestSend_fields _).1, (sendCore_fields st m t d).1]

theorem step_maxMessageSize (st : RdkafkaProducer) (op : Op) :
    (st.step op).maxMessageSize = st.maxMessageSize := by
  cases op with
  | submit m t d => exact stepSubmit_maxMessageSize st m t d
  | flushTick => exact (runScheduledFlush_fields st).1
  | connect err =>
    show (RdkafkaProducer.onConnected err st).maxMessageSize = st.maxMessageSize
    unfold RdkafkaProducer.onConnected
    rw [(requestSend_fields _).1]

/-! ### The per-key history through flush and submit -/

theorem mapGet_mem {m : List (String × α)} {k : String} {v : α}
    (h : mapGet m k = some v) : (k, v) ∈ m := by
  unfold mapGet at h
  cases hf : m.find? (fun p => p.1 = k) with
  | none => rw [hf] at h; simp at h
  | some p =>
    rw [hf] at h
    simp at h
    have hp := List.find?_some hf
    have hm := List.mem_of_find?_eq_some hf
    have h1 : p.1 = k := by simpa using hp
    have : p = (k, v) := by
      obtain ⟨a, b⟩ := p
      rw [Prod.mk.injEq]
      exact ⟨h1, h⟩
    rwa [this] at hm

theorem recordsOf_filter_of_not_mem {topic k : String}
    {m : List (String × List IPendingBoxcar)}
    (hcons : ∀ p ∈ m, ∀ b ∈ p.2, makeKey b.tenantId b.documentId = p.1)
    (hk : k ∉ m.map Prod.fst) :
    (recordsOf topic m).filter
      (fun r => makeKey r.payload.tenantId r.payload.documentId = k) = [] := by
  rw [List.filter_eq_nil_iff]
  intro r hr
  simp only [recordsOf, List.mem_flatten, List.mem_map] at hr
  obtain ⟨l, ⟨p, hp, rfl⟩, hrl⟩ := hr
  obtain ⟨b, hb, rfl⟩ := List.mem_map.1 hrl
  have hkey := hcons p hp b hb
  simp only [boxcarRecord, decide_eq_true_eq]
  intro hcontra
  rw [hkey] at hcontra
  exact hk (hcontra ▸ List.mem_map_of_mem Prod.fst hp)

theorem recordsOf_filter {topic k : String} {m : List (String × List IPendingBoxcar)}
    (hcons : ∀ p ∈ m, ∀ b ∈ p.2, makeKey b.tenantId b.documentId = p.1)
    (hnd : (m.map Prod.fst).Nodup) :
    (((recordsOf topic m).filter
        (fun r => makeKey r.payload.tenantId r.payload.documentId = k)).map
      (fun r => r.payload.contents)).flatten
      = (((mapGet m k).getD []).map IPendingBoxcar.messages).flatten := by
  induction m with
  | nil => rfl
  | cons p rest ih =>
    obtain ⟨k2, q⟩ := p
    have hconsq : ∀ b ∈ q, makeKey b.tenantId b.documentId = k2 :=
      fun b hb => hcons (k2, q) (List.mem_cons_self _ _) b hb
    have hconsr : ∀ p ∈ rest, ∀ b ∈ p.2, makeKey b.tenantId b.documentId = p.1 :=
      fun p hp b hb => hcons p (List.mem_cons_of_mem _ hp) b hb
    have hndr : (rest.map Prod.fst).Nodup := (List.nodup_cons.1 hnd).2
    have hrec : recordsOf topic ((k2, q) :: rest)
        = q.map (boxcarRecord topic) ++ recordsOf topic rest := by
      simp [recordsOf]
    rw [hrec, List.filter_append, mapGet_cons]
    by_cases hk2 : k2 = k
    · subst hk2
      have hknotin : k2 ∉ rest.map Prod.fst := (List.nodup_cons.1 hnd).1
      have hall : (q.map (boxcarRecord topic)).filter
          (fun r => makeKey r.payload.tenantId r.payload.documentId = k2)
            = q.map (boxcarRecord topic) := by
        rw [List.filter_eq_self]
        intro r hr
        obtain ⟨b, hb, rfl⟩ := List.mem_map.1 hr
        simp [boxcarRecord, hconsq b hb]
      rw [hall, recordsOf_filter_of_not_mem hconsr hknotin]
      simp only [List.append_nil, List.map_map, mapGet_cons, if_pos rfl, Option.getD_some]
      congr 1
    · have hnone : (q.map (boxcarRecord topic)).filter
          (fun r => makeKey r.payload.tenantId r.payload.documentId = k) = [] := by
        rw [List.filter_eq_nil_iff]
        intro r hr
        obtain ⟨b, hb, rfl⟩ := List.mem_map.1 hr
        simp [boxcarRecord, hconsq b hb, hk2]
      rw [hnone]
      simp only [List.nil_append]
      rw [ih hconsr hndr]
      simp [hk2]

theorem sendPendingMessages_flushedFor {st : RdkafkaProducer} (hg : GoodMap st)
    (k : String) :
    flushedFor k st.sendPendingMessages = flushedFor k st ++ pendingFor k st := by
  obtain ⟨hcons, hnd⟩ := hg
  show ((((st.produced ++ recordsOf st.topic st.messages).filter _).map _).flatten) = _
  rw [List.filter_append, List.map_append, List.flatten_append]
  congr 1
  exact recordsOf_filter hcons hnd

theorem sendPendingMessages_pendingFor (st : RdkafkaProducer) (k : String) :
    pendingFor k st.sendPendingMessages = [] := rfl

theorem goodMap_sendPendingMessages (st : RdkafkaProducer) :
    GoodMap st.sendPendingMessages := by
  constructor
  · intro p hp
    simp [RdkafkaProducer.sendPendingMessages] at hp
  · show (([] : List (String × List IPendingBoxcar)).map Prod.fst).Nodup
    simp

theorem sendPendingMessages_keyHistory {st : RdkafkaProducer} (hg : GoodMap st)
    (k : String) :
    keyHistory k st.sendPendingMessages = keyHistory k st := by
  unfold keyHistory
  rw [sendPendingMessages_flushedFor hg, sendPendingMessages_pendingFor]
  simp [keyHistory]

theorem queueOf_consistent {st : RdkafkaProducer} (hcons : KeysConsistent st) (k : String) :
    ∀ b ∈ st.queueOf k, makeKey b.tenantId b.documentId = k := by
  intro b hb
  unfold RdkafkaProducer.queueOf at hb
  cases hq : mapGet st.messages k with
  | none => rw [hq] at hb; simp at hb
  | some q =>
    rw [hq] at hb
    simp only [Option.getD_some] at hb
    exact hcons (k, q) (mapGet_mem hq) b hb

theorem appendMessage_consistent {limit : ℚ} {nextId : ℕ} {t d m : String}
    {q : List IPendingBoxcar}
    (hq : ∀ b ∈ q, makeKey b.tenantId b.documentId = makeKey t d) :
    ∀ b ∈ appendMessage limit nextId t d m q,
      makeKey b.tenantId b.documentId = makeKey t d := by
  intro b hb
  cases hn : needNewBoxcar limit q m.length with
  | true =>
    rw [appendMessage_of_needNew hn] at hb
    rcases List.mem_append.1 hb with h1 | h1
    · exact hq b h1
    · rw [List.mem_singleton] at h1
      subst h1
      rfl
  | false =>
    obtain ⟨tail, hqt, -⟩ := needNewBoxcar_eq_false hn
    rw [appendMessage_of_tail hqt hn] at hb
    rcases List.mem_append.1 hb with h1 | h1
    · exact hq b (List.dropLast_subset q h1)
    · rw [List.mem_singleton] at h1
      subst h1
      exact hq tail (List.mem_of_getLast?_eq_some hqt)

theorem goodMap_sendCore {st : RdkafkaProducer} (hg : GoodMap st) (m t d : String) :
    GoodMap (st.sendCore m t d) := by
  obtain ⟨hcons, hnd⟩ := hg
  constructor
  · intro p hp b hb
    rcases mem_mapSet hp with h1 | h1
    · exact hcons p h1 b hb
    · subst h1
      exact appendMessage_consistent (queueOf_consistent hcons _) b hb
  · exact mapSet_keys_nodup hnd

theorem goodMap_requestSend {st : RdkafkaProducer} (hg : GoodMap st) :
    GoodMap st.requestSend := by
  unfold RdkafkaProducer.requestSend
  split
  · exact hg
  split
  · exact goodMap_sendPendingMessages _
  split
  · exact hg
  · exact hg

theorem goodMap_runScheduledFlush {st : RdkafkaProducer} (hg : GoodMap st) :
    GoodMap st.runScheduledFlush := by
  unfold RdkafkaProducer.runScheduledFlush
  split
  · exact goodMap_sendPendingMessages st
  · exact hg

theorem goodMap_step {st : RdkafkaProducer} (hg : GoodMap st) (op : Op) :
    GoodMap (st.step op) := by
  cases op with
  | submit m t d =>
    by_cases h : ((m.length : ℕ) : ℚ) ≥ st.maxMessageSize
    · rw [show st.step (Op.submit m t d) = st.stepSubmit m t d from rfl,
          stepSubmit_oversized h]
      exact hg
    · rw [show st.step (Op.submit m t d) = st.stepSubmit m t d from rfl, stepSubmit_ok h]
      exact goodMap_requestSend (goodMap_sendCore hg m t d)
  | flushTick => exact goodMap_runScheduledFlush hg
  | connect err =>
    show GoodMap (RdkafkaProducer.requestSend { st with connected := true })
    exact @goodMap_requestSend { st with connected := true } hg

theorem sendCore_pendingFor_self (st : RdkafkaProducer) (m t d : String) :
    pendingFor (makeKey t d) (st.sendCore m t d) = pendingFor (makeKey t d) st ++ [m] := by
  show (((mapGet (mapSet st.messages (makeKey t d)
      (appendMessage st.maxMessageSize st.nextDeferredId t d m
        (st.queueOf (makeKey t d)))) (makeKey t d)).getD []).map
          IPendingBoxcar.messages).flatten
    = ((st.queueOf (makeKey t d)).map IPendingBoxcar.messages).flatten ++ [m]
  rw [mapGet_mapSet_self]
  simp only [Option.getD_some]
  exact appendMessage_flatten _ _ _ _ _ _

theorem sendCore_pendingFor_ne (st : RdkafkaProducer) (m t d : String) {k : String}
    (h : k ≠ makeKey t d) :
    pendingFor k (st.sendCore m t d) = pendingFor k st := by
  show (((mapGet (mapSet st.messages (makeKey t d)
      (appendMessage st.maxMessageSize st.nextDeferredId t d m
        (st.queueOf (makeKey t d)))) k).getD []).map IPendingBoxcar.messages).flatten
    = pendingFor k st
  rw [mapGet_mapSet_ne _ _ h]
  rfl

theorem requestSend_keyHistory {st : RdkafkaProducer} (hg : GoodMap st) (k : String) :
    keyHistory k st.requestSend = keyHistory k st := by
  unfold RdkafkaProducer.requestSend
  split
  · rfl
  split
  · exact sendPendingMessages_keyHistory hg k
  split
  · rfl
  · rfl

theorem runScheduledFlush_keyHistory {st : RdkafkaProducer} (hg : GoodMap st)
    (k : String) :
    keyHistory k st.runScheduledFlush = keyHistory k st := by
  unfold RdkafkaProducer.runScheduledFlush
  split
  · exact sendPendingMessages_keyHistory hg k
  · rfl

theorem stepSubmit_keyHistory {st : RdkafkaProducer} (hg : GoodMap st)
    (m t d k : String) :
    keyHistory k (st.stepSubmit m t d)
      = keyHistory k st
        ++ (if makeKey t d = k ∧ ¬ (((m.length : ℕ) : ℚ) ≥ st.maxMessageSize)
            then [m] else []) := by
  by_cases h : ((m.length : ℕ) : ℚ) ≥ st.maxMessageSize
  · rw [stepSubmit_oversized h]
    simp [h]
  · rw [stepSubmit_ok h, requestSend_keyHistory (goodMap_sendCore hg m t d) k]
    by_cases hk : makeKey t d = k
    · subst hk
      simp only [keyHistory]
      have hf : flushedFor (makeKey t d) (st.sendCore m t d)
          = flushedFor (makeKey t d) st := rfl
      rw [hf, sendCore_pendingFor_self]
      simp [h]
    · simp only [keyHistory]
      have hf : flushedFor k (st.sendCore m t d) = flushedFor k st := rfl
      rw [hf, sendCore_pendingFor_ne st m t d (fun hh => hk hh.symm),
          if_neg (fun hc => hk hc.1), List.append_nil]

theorem onConnected_keyHistory {st : RdkafkaProducer} (hg : GoodMap st)
    (err : Option String) (k : String) :
    keyHistory k (RdkafkaProducer.onConnected err st) = keyHistory k st := by
  unfold RdkafkaProducer.onConnected
  exact @requestSend_keyHistory { st with connected := true } hg k

theorem submittedFor_cons (limit : ℚ) (k : String) (op : Op) (rest : List Op) :
    submittedFor limit k (op :: rest)
      = submittedFor limit k [op] ++ submittedFor limit k rest := by
  cases op <;> simp [submittedFor]

theorem step_keyHistory {st : RdkafkaProducer} (hg : GoodMap st) (op : Op) (k : String) :
    keyHistory k (st.step op) = keyHistory k st ++ submittedFor st.maxMessageSize k [op] := by
  cases op with
  | submit m t d =>
    rw [show st.step (Op.submit m t d) = st.stepSubmit m t d from rfl,
        stepSubmit_keyHistory hg m t d k]
    simp [submittedFor]
  | flushTick =>
    rw [show st.step Op.flushTick = st.runScheduledFlush from rfl,
        runScheduledFlush_keyHistory hg k]
    simp [submittedFor]
  | connect err =>
    rw [show st.step (Op.connect err) = RdkafkaProducer.onConnected err st from rfl,
        onConnected_keyHistory hg err k]
    simp [submittedFor]

theorem execFrom_keyHistory {st : RdkafkaProducer} (hg : GoodMap st) (ops : List Op)
    (k : String) :
    keyHistory k (execFrom st ops)
        = keyHistory k st ++ submittedFor st.maxMessageSize k ops
      ∧ GoodMap (execFrom st ops) := by
  induction ops generalizing st with
  | nil => exact ⟨(List.append_nil _).symm, hg⟩
  | cons op rest ih =>
    have hstep := step_keyHistory hg op k
    have hgood := goodMap_step hg op
    have hmax := step_maxMessageSize st op
    obtain ⟨ih1, ih2⟩ := ih hgood
    refine ⟨?_, ih2⟩
    show keyHistory k (execFrom (st.step op) rest) = _
    rw [ih1, hmax, hstep, List.append_assoc, ← submittedFor_cons]

/-! ### Size-bound and counting invariants -/

/-- Every queued boxcar's accumulated size is within the effective limit. -/
def SizesBounded (st : RdkafkaProducer) : Prop :=
  ∀ p ∈ st.messages, ∀ b ∈ p.2, (b.size : ℚ) ≤ st.maxMessageSize

/-- Every queued boxcar holds at least one message. -/
def BoxcarsNonempty (st : RdkafkaProducer) : Prop :=
  ∀ p ∈ st.messages, ∀ b ∈ p.2, b.messages ≠ []

/-- Every queued boxcar's size field is the sum of its message lengths. -/
def SizesAccurate (st : RdkafkaProducer) : Prop :=
  ∀ p ∈ st.messages, ∀ b ∈ p.2, b.size = (b.messages.map String.length).sum

/-- The number of messages queued across all boxcars of all queues. -/
def totalPending (st : RdkafkaProducer) : ℕ :=
  (st.messages.map (fun p => (p.2.map (fun b => b.messages.length)).sum)).sum

/-- The pending-message counter agrees with the queues. -/
def CounterAccurate (st : RdkafkaProducer) : Prop :=
  st.pendingMessageCount = totalPending st

theorem queueOf_bounded {st : RdkafkaProducer} (hs : SizesBounded st) (k : String) :
    ∀ b ∈ st.queueOf k, (b.size : ℚ) ≤ st.maxMessageSize := by
  intro b hb
  unfold RdkafkaProducer.queueOf at hb
  cases hq : mapGet st.messages k with
  | none => rw [hq] at hb; simp at hb
  | some q =>
    rw [hq] at hb
    simp only [Option.getD_some] at hb
    exact hs (k, q) (mapGet_mem hq) b hb

theorem queueOf_nonempty {st : RdkafkaProducer} (hs : BoxcarsNonempty st) (k : String) :
    ∀ b ∈ st.queueOf k, b.messages ≠ [] := by
  intro b hb
  unfold RdkafkaProducer.queueOf at hb
  cases hq : mapGet st.messages k with
  | none => rw [hq] at hb; simp at hb
  | some q =>
    rw [hq] at hb
    simp only [Option.getD_some] at hb
    exact hs (k, q) (mapGet_mem hq) b hb

theorem queueOf_accurate {st : RdkafkaProducer} (hs : SizesAccurate st) (k : String) :
    ∀ b ∈ st.queueOf k, b.size = (b.messages.map String.length).sum := by
  intro b hb
  unfold RdkafkaProducer.queueOf at hb
  cases hq : mapGet st.messages k with
  | none => rw [hq] at hb; simp at hb
  | some q =>
    rw [hq] at hb
    simp only [Option.getD_some] at hb
    exact hs (k, q) (mapGet_mem hq) b hb

theorem appendMessage_bounded {limit : ℚ} {nextId : ℕ} {t d m : String}
    {q : List IPendingBoxcar}
    (hlen : ¬ ((m.length : ℕ) : ℚ) ≥ limit)
    (hq : ∀ b ∈ q, (b.size : ℚ) ≤ limit) :
    ∀ b ∈ appendMessage limit nextId t d m q, (b.size : ℚ) ≤ limit := by
  intro b hb
  cases hn : needNewBoxcar limit q m.length with
  | true =>
    rw [appendMessage_of_needNew hn] at hb
    rcases List.mem_append.1 hb with h1 | h1
    · exact hq b h1
    · rw [List.mem_singleton] at h1
      subst h1
      exact (not_le.1 hlen).le
  | false =>
    obtain ⟨tail, hqt, hsz⟩ := needNewBoxcar_eq_false hn
    rw [appendMessage_of_tail hqt hn] at hb
    rcases List.mem_append.1 hb with h1 | h1
    · exact hq b (List.dropLast_subset q h1)
    · rw [List.mem_singleton] at h1
      subst h1
      simpa [pushMsg] using not_lt.1 hsz

theorem appendMessage_nonempty {limit : ℚ} {nextId : ℕ} {t d m : String}
    {q : List IPendingBoxcar} (hq : ∀ b ∈ q, b.messages ≠ []) :
    ∀ b ∈ appendMessage limit nextId t d m q, b.messages ≠ [] := by
  intro b hb
  cases hn : needNewBoxcar limit q m.length with
  | true =>
    rw [appendMessage_of_needNew hn] at hb
    rcases List.mem_append.1 hb with h1 | h1
    · exact hq b h1
    · rw [List.mem_singleton] at h1
      subst h1
      simp
  | false =>
    obtain ⟨tail, hqt, -⟩ := needNewBoxcar_eq_false hn
    rw [appendMessage_of_tail hqt hn] at hb
    rcases List.mem_append.1 hb with h1 | h1
    · exact hq b (List.dropLast_subset q h1)
    · rw [List.mem_singleton] at h1
      subst h1
      simp [pushMsg]

theorem appendMessage_accurate {limit : ℚ} {nextId : ℕ} {t d m : String}
    {q : List IPendingBoxcar}
    (hq : ∀ b ∈ q, b.size = (b.messages.map String.length).sum) :
    ∀ b ∈ appendMessage limit nextId t d m q,
      b.size = (b.messages.map String.length).sum := by
  intro b hb
  cases hn : needNewBoxcar limit q m.length with
  | true =>
    rw [appendMessage_of_needNew hn] at hb
    rcases List.mem_append.1 hb with h1 | h1
    · exact hq b h1
    · rw [List.mem_singleton] at h1
      subst h1
      simp
  | false =>
    obtain ⟨tail, hqt, -⟩ := needNewBoxcar_eq_false hn
    rw [appendMessage_of_tail hqt hn] at hb
    rcases List.mem_append.1 hb with h1 | h1
    · exact hq b (List.dropLast_subset q h1)
    · rw [List.mem_singleton] at h1
      subst h1
      have := hq tail (List.mem_of_getLast?_eq_some hqt)
      simp [pushMsg, this]

theorem totalPending_mapSet_append (m : List (String × List IPendingBoxcar)) (k : String)
    (f : List IPendingBoxcar → List IPendingBoxcar)
    (hf : ∀ q, ((f q).map (fun b => b.messages.length)).sum
      = (q.map (fun b => b.messages.length)).sum + 1) :
    ((mapSet m k (f ((mapGet m k).getD []))).map
        (fun p => (p.2.map (fun b => b.messages.length)).sum)).sum
      = (m.map (fun p => (p.2.map (fun b => b.messages.length)).sum)).sum + 1 := by
  induction m with
  | nil =>
    simp [mapSet, mapGet_nil, hf]
  | cons p rest ih =>
    obtain ⟨k2, q⟩ := p
    by_cases h : k2 = k
    · subst h
      have hs : mapSet ((k2, q) :: rest) k2 (f ((mapGet ((k2, q) :: rest) k2).getD []))
          = (k2, f q) :: rest := by
        simp [mapSet, mapGet_cons]
      rw [hs, List.map_cons, List.sum_cons, hf, List.map_cons, List.sum_cons]
      dsimp only
      omega
    · have hs : mapSet ((k2, q) :: rest) k (f ((mapGet ((k2, q) :: rest) k).getD []))
          = (k2, q) :: mapSet rest k (f ((mapGet rest k).getD [])) := by
        simp [mapSet, mapGet_cons, h]
      rw [hs, List.map_cons, List.sum_cons, ih, List.map_cons, List.sum_cons]
      dsimp only
      omega

/-- The combined invariant of claim C9 together with key well-formedness. -/
def StateInv (st : RdkafkaProducer) : Prop :=
  CounterAccurate st ∧ BoxcarsNonempty st ∧ SizesAccurate st ∧ SizesBounded st ∧ GoodMap st

theorem stateInv_sendPendingMessages (st : RdkafkaProducer) :
    StateInv st.sendPendingMessages := by
  refine ⟨?_, ?_, ?_, ?_, goodMap_sendPendingMessages st⟩
  · show (0 : ℕ) = totalPending st.sendPendingMessages
    rfl
  all_goals intro p hp; simp [RdkafkaProducer.sendPendingMessages] at hp

theorem stateInv_requestSend {st : RdkafkaProducer} (h : StateInv st) :
    StateInv st.requestSend := by
  unfold RdkafkaProducer.requestSend
  split
  · exact h
  split
  · exact stateInv_sendPendingMessages { st with sendPending := false }
  split
  · exact h
  · exact h

theorem stateInv_sendCore {st : RdkafkaProducer} (h : StateInv st) {m : String}
    (t d : String) (hlen : ¬ ((m.length : ℕ) : ℚ) ≥ st.maxMessageSize) :
    StateInv (st.sendCore m t d) := by
  obtain ⟨hcount, hne, hacc, hbd, hg⟩ := h
  refine ⟨?_, ?_, ?_, ?_, goodMap_sendCore hg m t d⟩
  · show st.pendingMessageCount + 1 = totalPending (st.sendCore m t d)
    have hts : totalPending (st.sendCore m t d) = totalPending st + 1 := by
      unfold totalPending
      exact totalPending_mapSet_append st.messages (makeKey t d)
        (appendMessage st.maxMessageSize st.nextDeferredId t d m)
        (appendMessage_msgcount st.maxMessageSize st.nextDeferredId t d m)
    have hc2 : st.pendingMessageCount = totalPending st := hcount
    rw [hts, hc2]
  · intro p hp b hb
    rcases mem_mapSet hp with h1 | h1
    · exact hne p h1 b hb
    · subst h1
      exact appendMessage_nonempty (queueOf_nonempty hne _) b hb
  · intro p hp b hb
    rcases mem_mapSet hp with h1 | h1
    · exact hacc p h1 b hb
    · subst h1
      exact appendMessage_accurate (queueOf_accurate hacc _) b hb
  · intro p hp b hb
    rcases mem_mapSet hp with h1 | h1
    · exact hbd p h1 b hb
    · subst h1
      exact appendMessage_bounded hlen (queueOf_bounded hbd _) b hb

theorem stateInv_step {st : RdkafkaProducer} (h : StateInv st) (op : Op) :
    StateInv (st.step op) := by
  cases op with
  | submit m t d =>
    by_cases hlen : ((m.length : ℕ) : ℚ) ≥ st.maxMessageSize
    · rw [show st.step (Op.submit m t d) = st.stepSubmit m t d from rfl,
          stepSubmit_oversized hlen]
      exact h
    · rw [show st.step (Op.submit m t d) = st.stepSubmit m t d from rfl, stepSubmit_ok hlen]
      exact stateInv_requestSend (stateInv_sendCore h t d hlen)
  | flushTick =>
    show StateInv st.runScheduledFlush
    unfold RdkafkaProducer.runScheduledFlush
    split
    · exact stateInv_sendPendingMessages st
    · exact h
  | connect err =>
    show StateInv (RdkafkaProducer.requestSend { st with connected := true })
    exact @stateInv_requestSend { st with connected := true } h

theorem stateInv_mkProducer (topic : String) (mms : ℚ) : StateInv (mkProducer topic mms) := by
  refine ⟨rfl, ?_, ?_, ?_, ?_, ?_⟩
  all_goals first
    | (intro p hp; simp [mkProducer] at hp)
    | (show (([] : List (String × List IPendingBoxcar)).map Prod.fst).Nodup; simp)

theorem stateInv_reachable {st : RdkafkaProducer} (h : Reachable st) : StateInv st := by
  obtain ⟨topic, mms, ops, rfl⟩ := h
  induction ops using List.reverseRecOn with
  | nil => exact stateInv_mkProducer topic mms
  | append_singleton ops op ih =>
    have : execFrom (mkProducer topic mms) (ops ++ [op])
        = (execFrom (mkProducer topic mms) ops).step op := by
      unfold execFrom
      rw [List.foldl_append]
      rfl
    rw [this]
    exact stateInv_step ih op

/-! ### Flush scheduling behaviour -/

theorem requestSend_noop {st : RdkafkaProducer} (hc : st.connected = true)
    (hlt : st.pendingMessageCount < MaxBatchSize) (hp : st.sendPending = true) :
    st.requestSend = st := by
  unfold RdkafkaProducer.requestSend
  rw [hc, if_neg (by simp), if_neg (not_le.2 hlt), if_pos hp]

theorem requestSend_schedules {st : RdkafkaProducer} (hc : st.connected = true)
    (hlt : st.pendingMessageCount < MaxBatchSize) (hp : st.sendPending = false) :
    st.requestSend
      = { st with sendPending := true, scheduleCount := st.scheduleCount + 1 } := by
  unfold RdkafkaProducer.requestSend
  rw [hc, if_neg (by simp), if_neg (not_le.2 hlt), if_neg (by simp [hp])]

theorem requestSend_messages_eq {st : RdkafkaProducer}
    (hlt : st.pendingMessageCount < MaxBatchSize) :
    st.requestSend.messages = st.messages
      ∧ st.requestSend.pendingMessageCount = st.pendingMessageCount := by
  unfold RdkafkaProducer.requestSend
  split
  · exact ⟨rfl, rfl⟩
  · rw [if_neg (not_le.2 hlt)]
    split
    · exact ⟨rfl, rfl⟩
    · exact ⟨rfl, rfl⟩

theorem stepSubmit_keepsPending {st : RdkafkaProducer} {m t d : String}
    (hc : st.connected = true) (hp : st.sendPending = true)
    (hlt : st.pendingMessageCount + 1 < MaxBatchSize)
    (hlen : ¬ ((m.length : ℕ) : ℚ) ≥ st.maxMessageSize) :
    (st.stepSubmit m t d).connected = true
    ∧ (st.stepSubmit m t d).sendPending = true
    ∧ (st.stepSubmit m t d).scheduleCount = st.scheduleCount
    ∧ (st.stepSubmit m t d).pendingMessageCount = st.pendingMessageCount + 1
    ∧ (st.stepSubmit m t d).maxMessageSize = st.maxMessageSize := by
  rw [stepSubmit_ok hlen]
  have hre : (st.sendCore m t d).requestSend = st.sendCore m t d :=
    @requestSend_noop (st.sendCore m t d) hc hlt hp
  rw [hre]
  exact ⟨hc, hp, rfl, rfl, rfl⟩

theorem stepSubmit_schedules {st : RdkafkaProducer} {m t d : String}
    (hc : st.connected = true) (hp : st.sendPending = false)
    (hlt : st.pendingMessageCount + 1 < MaxBatchSize)
    (hlen : ¬ ((m.length : ℕ) : ℚ) ≥ st.maxMessageSize) :
    (st.stepSubmit m t d).connected = true
    ∧ (st.stepSubmit m t d).sendPending = true
    ∧ (st.stepSubmit m t d).scheduleCount = st.scheduleCount + 1
    ∧ (st.stepSubmit m t d).pendingMessageCount = st.pendingMessageCount + 1
    ∧ (st.stepSubmit m t d).maxMessageSize = st.maxMessageSize := by
  rw [stepSubmit_ok hlen]
  have hre : (st.sendCore m t d).requestSend
      = { (st.sendCore m t d) with sendPending := true, scheduleCount := (st.sendCore m t d).scheduleCount + 1 } :=
    @requestSend_schedules (st.sendCore m t d) hc hlt hp
  rw [hre]
  exact ⟨hc, rfl, rfl, rfl, rfl⟩

theorem submits_coalesce {st : RdkafkaProducer} (msgs : List (String × String × String))
    (hc : st.connected = true) (hp : st.sendPending = true)
    (hbound : st.pendingMessageCount + msgs.length < MaxBatchSize)
    (hlen : ∀ x ∈ msgs, ¬ ((x.1.length : ℕ) : ℚ) ≥ st.maxMessageSize) :
    (execFrom st (msgs.map (fun x => Op.submit x.1 x.2.1 x.2.2))).scheduleCount
        = st.scheduleCount
    ∧ (execFrom st (msgs.map (fun x => Op.submit x.1 x.2.1 x.2.2))).sendPending = true := by
  induction msgs generalizing st with
  | nil => exact ⟨rfl, hp⟩
  | cons x rest ih =>
    have hlt : st.pendingMessageCount + 1 < MaxBatchSize := by
      have := hbound
      simp only [List.length_cons] at this
      omega
    obtain ⟨h1, h2, h3, h4, h5⟩ :=
      stepSubmit_keepsPending (m := x.1) (t := x.2.1) (d := x.2.2) hc hp hlt
        (hlen x (List.mem_cons_self x rest))
    have hb2 : (st.stepSubmit x.1 x.2.1 x.2.2).pendingMessageCount + rest.length
        < MaxBatchSize := by
      rw [h4]
      have := hbound
      simp only [List.length_cons] at this
      omega
    have hl2 : ∀ y ∈ rest,
        ¬ ((y.1.length : ℕ) : ℚ) ≥ (st.stepSubmit x.1 x.2.1 x.2.2).maxMessageSize := by
      intro y hy
      rw [h5]
      exact hlen y (List.mem_cons_of_mem x hy)
    obtain ⟨ihs, ihp⟩ := @ih (st.stepSubmit x.1 x.2.1 x.2.2) h1 h2 hb2 hl2
    constructor
    · show (execFrom (st.stepSubmit x.1 x.2.1 x.2.2)
        (rest.map (fun y => Op.submit y.1 y.2.1 y.2.2))).scheduleCount = st.scheduleCount
      rw [ihs, h3]
    · exact ihp

theorem stepSubmit_queueOf {st : RdkafkaProducer} {m t d : String}
    (hlen : ¬ ((m.length : ℕ) : ℚ) ≥ st.maxMessageSize)
    (hlt : st.pendingMessageCount + 1 < MaxBatchSize) :
    (st.stepSubmit m t d).queueOf (makeKey t d)
      = appendMessage st.maxMessageSize st.nextDeferredId t d m
          (st.queueOf (makeKey t d)) := by
  rw [stepSubmit_ok hlen]
  have hmsg := (@requestSend_messages_eq (st.sendCore m t d) hlt).1
  unfold RdkafkaProducer.queueOf
  rw [hmsg]
  show (mapGet (mapSet st.messages (makeKey t d)
      (appendMessage st.maxMessageSize st.nextDeferredId t d m
        (st.queueOf (makeKey t d)))) (makeKey t d)).getD []
    = appendMessage st.maxMessageSize st.nextDeferredId t d m (st.queueOf (makeKey t d))
  rw [mapGet_mapSet_self]
  rfl

/-! ### Claim theorems -/

/-- C1: the effective size limit is 75 percent of the configured maximum, and a
message whose length is greater than or equal to it makes send fail immediately
with the "Message too large" error while mutating no producer state: no queue
entry, no boxcar, and an unchanged pending-message counter. -/
theorem oversized_message_rejected_without_mutation :
    (∀ (topic : String) (cfg : ℚ),
      (mkProducer topic cfg).maxMessageSize = cfg * (3 / 4))
    ∧ (∀ (st : RdkafkaProducer) (m t d : String),
        ((m.length : ℕ) : ℚ) ≥ st.maxMessageSize →
          st.send m t d = Except.error "Message too large"
            ∧ st.stepSubmit m t d = st) := by
  constructor
  · intro topic cfg
    exact threeQuarters_eq cfg
  · intro st m t d h
    refine ⟨?_, stepSubmit_oversized h⟩
    unfold RdkafkaProducer.send
    rw [if_pos h]

theorem oversized_message_rejected_without_mutation_witness :
    (mkProducer "raw" 4).send "aaa" "tenant" "doc" = Except.error "Message too large"
    ∧ (mkProducer "raw" 4).stepSubmit "aaa" "tenant" "doc" = mkProducer "raw" 4 :=
  oversized_message_rejected_without_mutation.2 (mkProducer "raw" 4) "aaa" "tenant" "doc"
    (by decide)

/-- C2: every boxcar in every reachable state has accumulated size at most the
effective size limit, and a submit whose message would push the tail boxcar
past the limit starts a new boxcar holding just that message instead of
growing the tail. -/
theorem boxcar_size_bound :
    (∀ st : RdkafkaProducer, Reachable st →
      ∀ p ∈ st.messages, ∀ b ∈ p.2, (b.size : ℚ) ≤ st.maxMessageSize)
    ∧ (∀ (limit : ℚ) (nextId : ℕ) (t d m : String) (q : List IPendingBoxcar)
        (tail : IPendingBoxcar), q.getLast? = some tail →
        ((tail.size + m.length : ℕ) : ℚ) > limit →
        appendMessage limit nextId t d m q
          = q ++ [{ deferred := nextId, documentId := d, messages := [m],
                    size := m.length, tenantId := t }]) := by
  constructor
  · intro st h p hp b hb
    exact (stateInv_reachable h).2.2.2.1 p hp b hb
  · intro limit nextId t d m q tail hq hgt
    apply appendMessage_of_needNew
    unfold needNewBoxcar
    rw [hq]
    simpa using hgt

theorem boxcar_size_bound_witness :
    (((⟨0, "d", ["aa"], 2, "t"⟩ : IPendingBoxcar).size : ℚ)
      ≤ (execFrom (mkProducer "T" 16) [Op.submit "aa" "t" "d"]).maxMessageSize)
    ∧ appendMessage 1 5 "t" "d" "xx" [⟨9, "d", ["yy"], 2, "t"⟩]
      = [(⟨9, "d", ["yy"], 2, "t"⟩ : IPendingBoxcar), ⟨5, "d", ["xx"], 2, "t"⟩] :=
  ⟨boxcar_size_bound.1 _ ⟨"T", 16, [Op.submit "aa" "t" "d"], rfl⟩
      ("t/d", [⟨0, "d", ["aa"], 2, "t"⟩]) (by decide)
      ⟨0, "d", ["aa"], 2, "t"⟩ (by decide),
   boxcar_size_bound.2 1 5 "t" "d" "xx" [⟨9, "d", ["yy"], 2, "t"⟩]
      ⟨9, "d", ["yy"], 2, "t"⟩ rfl (by decide)⟩

/-- C3: for every event sequence and stream key, the concatenation of the
flushed records' contents for that key followed by its still-queued messages
equals the successfully submitted messages for that key in submission order;
flushing everything at the end therefore reproduces the submission order
exactly, across boxcar boundaries. -/
theorem same_key_order_preserved (topic : String) (mms : ℚ) (ops : List Op)
    (k : String) :
    flushedFor k (execFrom (mkProducer topic mms) ops)
        ++ pendingFor k (execFrom (mkProducer topic mms) ops)
      = submittedFor (threeQuarters mms) k ops
    ∧ flushedFor k ((execFrom (mkProducer topic mms) ops).sendPendingMessages)
      = submittedFor (threeQuarters mms) k ops := by
  have hg0 : GoodMap (mkProducer topic mms) := by
    constructor
    · intro p hp
      simp [mkProducer] at hp
    · show (([] : List (String × List IPendingBoxcar)).map Prod.fst).Nodup
      simp
  obtain ⟨h1, h2⟩ := execFrom_keyHistory hg0 ops k
  have hinit : keyHistory k (mkProducer topic mms) = [] := rfl
  have hmm : (mkProducer topic mms).maxMessageSize = threeQuarters mms := rfl
  rw [hinit, hmm, List.nil_append] at h1
  have hmain : flushedFor k (execFrom (mkProducer topic mms) ops)
      ++ pendingFor k (execFrom (mkProducer topic mms) ops)
      = submittedFor (threeQuarters mms) k ops := h1
  refine ⟨hmain, ?_⟩
  rw [sendPendingMessages_flushedFor h2 k]
  exact hmain

/-- C4: one flush run makes exactly one produce call per pending boxcar,
walking the key map and each queue in insertion order, each record addressed to
the configured topic with a null partition, a payload of the form
type "boxcar" with the boxcar's tenantId, documentId and ordered contents,
the boxcar's documentId as routing key and its completion handle as
correlation token; afterwards the queue map is empty and the pending counter
zero. -/
theorem flush_emits_one_record_per_boxcar (st : RdkafkaProducer) :
    st.sendPendingMessages.messages = []
    ∧ st.sendPendingMessages.pendingMessageCount = 0
    ∧ st.sendPendingMessages.produced
        = st.produced
          ++ (st.messages.map (fun p => p.2.map (fun b =>
                ({ topic := st.topic, partition := none,
                   payload := { contents := b.messages, documentId := b.documentId,
                                tenantId := b.tenantId, type := "boxcar" },
                   key := b.documentId, token := b.deferred } : ProducedRecord)))).flatten
    ∧ st.sendPendingMessages.produced.length
        = st.produced.length + (st.messages.map (fun p => p.2.length)).sum := by
  refine ⟨rfl, rfl, rfl, ?_⟩
  show (st.produced
      ++ (st.messages.map (fun p => p.2.map (boxcarRecord st.topic))).flatten).length = _
  rw [List.length_append]
  congr 1
  rw [List.length_flatten, List.map_map]
  congr 1
  apply List.map_congr_left
  intro p hp
  simp

/-- A 40-character message for the C5 scenario. -/
def msgA : String := String.mk (List.replicate 40 'a')

/-- A second 40-character message for the C5 scenario. -/
def msgB : String := String.mk (List.replicate 40 'b')

/-- A third 40-character message for the C5 scenario. -/
def msgC : String := String.mk (List.replicate 40 'c')

/-- The C5 scenario producer: configured maximum 400/3, effective limit 100. -/
def scenarioProducer : RdkafkaProducer := mkProducer "topic" (Rat.divInt 400 3)

/-- The C5 scenario state after the three submits to key (T, D). -/
def scenarioFinal : RdkafkaProducer :=
  execFrom scenarioProducer
    [Op.submit msgA "T" "D", Op.submit msgB "T" "D", Op.submit msgC "T" "D"]

/-- The queueOf view of sendCore at the submitted key. -/
theorem sendCore_queueOf_self (st : RdkafkaProducer) (m t d : String) :
    (st.sendCore m t d).queueOf (makeKey t d)
      = appendMessage st.maxMessageSize st.nextDeferredId t d m
          (st.queueOf (makeKey t d)) := by
  unfold RdkafkaProducer.queueOf
  show (mapGet (mapSet st.messages (makeKey t d)
      (appendMessage st.maxMessageSize st.nextDeferredId t d m
        (st.queueOf (makeKey t d)))) (makeKey t d)).getD []
    = appendMessage st.maxMessageSize st.nextDeferredId t d m (st.queueOf (makeKey t d))
  rw [mapGet_mapSet_self]
  rfl

/-- C5: a size-checked submit opens a new boxcar, with a fresh completion
handle and only the new message, exactly when the key's queue is empty or the
tail boxcar's size plus the message length would exceed the effective limit;
otherwise the message joins the tail boxcar. With effective limit 100, three
40-character submits to one key form boxcars [m1, m2] (size 80) and [m3]
(size 40), and flushing produces exactly those two records. -/
theorem boxcar_formation :
    (∀ (st : RdkafkaProducer) (m t d : String),
      ¬ ((m.length : ℕ) : ℚ) ≥ st.maxMessageSize →
      st.pendingMessageCount + 1 < MaxBatchSize →
        ((st.queueOf (makeKey t d) = []
            ∨ ∃ tail, (st.queueOf (makeKey t d)).getLast? = some tail
                ∧ ((tail.size + m.length : ℕ) : ℚ) > st.maxMessageSize) →
          (st.stepSubmit m t d).queueOf (makeKey t d)
            = st.queueOf (makeKey t d)
              ++ [{ deferred := st.nextDeferredId, documentId := d, messages := [m],
                    size := m.length, tenantId := t }])
        ∧ (∀ tail, (st.queueOf (makeKey t d)).getLast? = some tail →
            ¬ ((tail.size + m.length : ℕ) : ℚ) > st.maxMessageSize →
            (st.stepSubmit m t d).queueOf (makeKey t d)
              = (st.queueOf (makeKey t d)).dropLast ++ [pushMsg m tail]))
    ∧ scenarioProducer.maxMessageSize = 100
    ∧ scenarioFinal.messages
        = [("T/D", [(⟨0, "D", [msgA, msgB], 80, "T"⟩ : IPendingBoxcar),
                    ⟨1, "D", [msgC], 40, "T"⟩])]
    ∧ scenarioFinal.sendPendingMessages.produced
        = [(⟨"topic", none, ⟨[msgA, msgB], "D", "T", "boxcar"⟩, "D", 0⟩ : ProducedRecord),
           ⟨"topic", none, ⟨[msgC], "D", "T", "boxcar"⟩, "D", 1⟩] := by
  refine ⟨?_, by decide, by decide, by decide⟩
  intro st m t d hlen hlt
  constructor
  · intro hcond
    rw [stepSubmit_queueOf hlen hlt]
    apply appendMessage_of_needNew
    unfold needNewBoxcar
    rcases hcond with hemp | ⟨tail, hq, hgt⟩
    · rw [hemp]
      rfl
    · rw [hq]
      simpa using hgt
  · intro tail hq hle
    rw [stepSubmit_queueOf hlen hlt]
    exact appendMessage_of_tail hq (by unfold needNewBoxcar; rw [hq]; simpa using hle)

theorem boxcar_formation_witness :
    ((mkProducer "T" 16).stepSubmit "aa" "t" "d").queueOf (makeKey "t" "d")
      = (mkProducer "T" 16).queueOf (makeKey "t" "d")
        ++ [{ deferred := 0, documentId := "d", messages := ["aa"],
              size := "aa".length, tenantId := "t" }] :=
  (boxcar_formation.1 (mkProducer "T" 16) "aa" "t" "d" (by decide) (by decide)).1
    (Or.inl rfl)

/-- C6: the delivery-report handler rejects the correlated handle with the
report's error exactly when one is present and resolves it otherwise; and two
consecutive sends that land in the same boxcar return the same handle, so all
of a boxcar's messages settle together through that single handle. -/
theorem delivery_report_settles_boxcar :
    (∀ (e : String) (r : DeliveryReport),
        onDeliveryReport (some e) r = SettleAction.reject r.token e)
    ∧ (∀ r : DeliveryReport, onDeliveryReport none r = SettleAction.resolve r.token)
    ∧ (∀ (st : RdkafkaProducer) (m1 m2 t d : String) (st1 st2 : RdkafkaProducer)
        (h1 h2 : ℕ),
        st.send m1 t d = Except.ok (st1, h1) →
        st1.send m2 t d = Except.ok (st2, h2) →
        needNewBoxcar st1.maxMessageSize (st1.queueOf (makeKey t d)) m2.length = false →
        h1 = h2) := by
  refine ⟨fun e r => rfl, fun r => rfl, ?_⟩
  intro st m1 m2 t d st1 st2 h1 h2 hs1 hs2 hn
  by_cases hlen1 : ((m1.length : ℕ) : ℚ) ≥ st.maxMessageSize
  · rw [RdkafkaProducer.send, if_pos hlen1] at hs1
    exact absurd hs1 (by simp)
  by_cases hlen2 : ((m2.length : ℕ) : ℚ) ≥ st1.maxMessageSize
  · rw [RdkafkaProducer.send, if_pos hlen2] at hs2
    exact absurd hs2 (by simp)
  rw [send_ok hlen1] at hs1
  rw [send_ok hlen2] at hs2
  injection hs1 with hp1
  injection hs2 with hp2
  have hst1 : (st.sendCore m1 t d).requestSend = st1 := congrArg Prod.fst hp1
  have hh1 : st.sendHandle m1 t d = h1 := congrArg Prod.snd hp1
  have hh2 : st1.sendHandle m2 t d = h2 := congrArg Prod.snd hp2
  obtain ⟨tail, hq, -⟩ := needNewBoxcar_eq_false hn
  have hh2v : st1.sendHandle m2 t d = tail.deferred := by
    unfold RdkafkaProducer.sendHandle
    rw [appendMessage_of_tail hq hn, List.getLast?_concat]
    rfl
  have hq1 : st1.queueOf (makeKey t d)
      = appendMessage st.maxMessageSize st.nextDeferredId t d m1
          (st.queueOf (makeKey t d))
      ∨ st1.queueOf (makeKey t d) = [] := by
    rw [← hst1]
    unfold RdkafkaProducer.requestSend
    split
    · exact Or.inl (sendCore_queueOf_self st m1 t d)
    split
    · exact Or.inr rfl
    split
    · exact Or.inl (sendCore_queueOf_self st m1 t d)
    · exact Or.inl (sendCore_queueOf_self st m1 t d)
  rcases hq1 with hq1 | hq1
  · have hqA : (appendMessage st.maxMessageSize st.nextDeferredId t d m1
        (st.queueOf (makeKey t d))).getLast? = some tail := by
      rw [← hq1]
      exact hq
    have hh1v : st.sendHandle m1 t d = tail.deferred := by
      unfold RdkafkaProducer.sendHandle
      rw [hqA]
      rfl
    rw [← hh1, ← hh2, hh1v, hh2v]
  · rw [hq1] at hq
    simp at hq

theorem delivery_report_settles_boxcar_witness :
    onDeliveryReport (some "broker failure") ⟨7⟩
        = SettleAction.reject 7 "broker failure"
    ∧ onDeliveryReport none ⟨7⟩ = SettleAction.resolve 7
    ∧ (0 : ℕ) = 0 :=
  ⟨delivery_report_settles_boxcar.1 "broker failure" ⟨7⟩,
   delivery_report_settles_boxcar.2.1 ⟨7⟩,
   delivery_report_settles_boxcar.2.2 (mkProducer "T" 100) "x" "y" "t" "d"
     ((mkProducer "T" 100).stepSubmit "x" "t" "d")
     (((mkProducer "T" 100).stepSubmit "x" "t" "d").stepSubmit "y" "t" "d")
     0 0 (by rfl) (by rfl) (by decide)⟩

/-- C7: when the producer is connected, the pending counter is below the batch
ceiling and a flush is already scheduled, the scheduling step changes nothing;
consequently a nonempty burst of size-checked submits issued before the
scheduler yields increments the number of scheduled flushes by exactly one,
not once per submit. -/
theorem flush_scheduling_coalesced :
    (∀ st : RdkafkaProducer, st.connected = true →
        st.pendingMessageCount < MaxBatchSize → st.sendPending = true →
        st.requestSend = st)
    ∧ (∀ (st : RdkafkaProducer) (x : String × String × String)
        (rest : List (String × String × String)),
        st.connected = true → st.sendPending = false →
        st.pendingMessageCount + (x :: rest).length < MaxBatchSize →
        (∀ y ∈ x :: rest, ¬ ((y.1.length : ℕ) : ℚ) ≥ st.maxMessageSize) →
        (execFrom st ((x :: rest).map
            (fun y => Op.submit y.1 y.2.1 y.2.2))).scheduleCount
          = st.scheduleCount + 1) := by
  refine ⟨fun st hc hlt hp => requestSend_noop hc hlt hp, ?_⟩
  intro st x rest hc hp hbound hlen
  have hlt1 : st.pendingMessageCount + 1 < MaxBatchSize := by
    simp only [List.length_cons] at hbound
    omega
  obtain ⟨h1, h2, h3, h4, h5⟩ :=
    stepSubmit_schedules (m := x.1) (t := x.2.1) (d := x.2.2) hc hp hlt1
      (hlen x (List.mem_cons_self x rest))
  have hb2 : (st.stepSubmit x.1 x.2.1 x.2.2).pendingMessageCount + rest.length
      < MaxBatchSize := by
    rw [h4]
    simp only [List.length_cons] at hbound
    omega
  have hl2 : ∀ y ∈ rest,
      ¬ ((y.1.length : ℕ) : ℚ) ≥ (st.stepSubmit x.1 x.2.1 x.2.2).maxMessageSize := by
    intro y hy
    rw [h5]
    exact hlen y (List.mem_cons_of_mem x hy)
  obtain ⟨hs, -⟩ := submits_coalesce rest h1 h2 hb2 hl2
  show (execFrom (st.stepSubmit x.1 x.2.1 x.2.2)
      (rest.map (fun y => Op.submit y.1 y.2.1 y.2.2))).scheduleCount
    = st.scheduleCount + 1
  rw [hs, h3]

theorem flush_scheduling_coalesced_witness :
    ((execFrom (mkProducer "T" 100) [Op.connect none, Op.submit "x" "t" "d"]).requestSend
        = execFrom (mkProducer "T" 100) [Op.connect none, Op.submit "x" "t" "d"])
    ∧ (execFrom (execFrom (mkProducer "T" 100) [Op.connect none, Op.flushTick])
        ([("a", "t", "d"), ("b", "t", "d"), ("c", "t", "d")].map
          (fun y => Op.submit y.1 y.2.1 y.2.2))).scheduleCount
      = (execFrom (mkProducer "T" 100) [Op.connect none, Op.flushTick]).scheduleCount
          + 1 :=
  ⟨flush_scheduling_coalesced.1 _ (by decide) (by decide) (by decide),
   flush_scheduling_coalesced.2 _ ("a", "t", "d") [("b", "t", "d"), ("c", "t", "d")]
     (by decide) (by decide) (by decide) (by decide)⟩

/-- C8: the stream key tenantId + "/" + documentId is not injective: the
distinct pairs ("a/b", "c") and ("a", "b/c") produce the same key, so their
messages share one queue and are appended into one boxcar that carries only
the first pair's tenantId and documentId. -/
theorem stream_key_collision :
    makeKey "a/b" "c" = makeKey "a" "b/c"
    ∧ (("a/b", "c") : String × String) ≠ ("a", "b/c")
    ∧ (execFrom (mkProducer "T" 100)
        [Op.submit "x" "a/b" "c", Op.submit "y" "a" "b/c"]).messages
      = [("a/b/c", [(⟨0, "c", ["x", "y"], 2, "a/b"⟩ : IPendingBoxcar)])] :=
  ⟨rfl, by decide, by decide⟩

/-- C9: in every reachable state the process-wide pending-message counter
equals the total number of messages across all boxcars of all queues, every
queued boxcar holds at least one message, and each boxcar's size field is the
sum of its messages' lengths. -/
theorem counter_and_size_invariants (st : RdkafkaProducer) (h : Reachable st) :
    st.pendingMessageCount
        = (st.messages.map (fun p => (p.2.map (fun b => b.messages.length)).sum)).sum
    ∧ (∀ p ∈ st.messages, ∀ b ∈ p.2, b.messages ≠ [])
    ∧ (∀ p ∈ st.messages, ∀ b ∈ p.2, b.size = (b.messages.map String.length).sum) := by
  obtain ⟨hc, hne, hacc, -, -⟩ := stateInv_reachable h
  exact ⟨hc, hne, hacc⟩

theorem counter_and_size_invariants_witness :
    (execFrom (mkProducer "W" 16) [Op.submit "ab" "t" "d", Op.submit "c" "t" "d"]).pendingMessageCount
      = ((execFrom (mkProducer "W" 16)
            [Op.submit "ab" "t" "d", Op.submit "c" "t" "d"]).messages.map
          (fun p => (p.2.map (fun b => b.messages.length)).sum)).sum :=
  (counter_and_size_invariants _
    ⟨"W", 16, [Op.submit "ab" "t" "d", Op.submit "c" "t" "d"], rfl⟩).1

/-- C10: the connect callback sets the connected flag and immediately retries
flush scheduling for every (error, data) outcome, the reported error included:
its behaviour does not depend on the error argument at all. -/
theorem connect_callback_ignores_error (err : Option String) (st : RdkafkaProducer) :
    RdkafkaProducer.onConnected err st
        = RdkafkaProducer.requestSend { st with connected := true }
    ∧ (RdkafkaProducer.onConnected err st).connected = true
    ∧ RdkafkaProducer.onConnected err st = RdkafkaProducer.onConnected none st := by
  refine ⟨rfl, ?_, rfl⟩
  show (RdkafkaProducer.requestSend { st with connected := true }).connected = true
  rw [(requestSend_fields _).2.1]

end Rdkafka
